import Mathlib

set_option maxHeartbeats 1600000
set_option maxRecDepth 4000

/-!
Shallow embedding of the BMv2 STF driver (`backends/bmv2/bmv2stf.py`).

Python strings are modelled as `List Char`, Python exceptions as values of
`Except PyErr`, dictionaries as association lists or `Str → Option Str`
functions.  Loops whose arguments shrink by a computed amount per iteration
are written with an explicit fuel argument initialised to `length + 1`; each
iteration strictly shrinks the string, so the fuel can never run out for the
entry points used below.
-/

abbrev Str : Type := List Char

instance exceptDecidableEq {ε α : Type} [DecidableEq ε] [DecidableEq α] :
    DecidableEq (Except ε α)
  | Except.ok a, Except.ok b =>
    if h : a = b then isTrue (by subst h; rfl)
    else isFalse (by intro e; cases e; exact h rfl)
  | Except.ok _, Except.error _ => isFalse (by intro h; cases h)
  | Except.error _, Except.ok _ => isFalse (by intro h; cases h)
  | Except.error e, Except.error f =>
    if h : e = f then isTrue (by subst h; rfl)
    else isFalse (by intro x; cases x; exact h rfl)

/-- Python whitespace characters, the set used by `str.split()` / `str.strip()`. -/
def pyIsSpace (c : Char) : Bool :=
  c == ' ' || c == '\t' || c == '\n' || c == '\r' || c == '\x0b' || c == '\x0c'

/-- Drop characters satisfying `p` from both ends of a string. -/
def dropAround (p : Char → Bool) (s : Str) : Str :=
  ((s.dropWhile p).reverse.dropWhile p).reverse

/-- Python `s.strip()`. -/
def pyStrip (s : Str) : Str := dropAround pyIsSpace s

/-- Python `s.strip(chars)`: remove the given characters from both ends. -/
def pyStripChars (chars : Str) (s : Str) : Str :=
  dropAround (fun c => chars.contains c) s

/-- Split at the first occurrence of `sep`, when it occurs
(the head of Python `s.split(sep, 1)`). -/
def splitFirst (sep : Char) : Str → Option (Str × Str)
  | [] => none
  | c :: cs =>
    if c = sep then some ([], cs)
    else
      match splitFirst sep cs with
      | none => none
      | some p => some (c :: p.1, p.2)

/-- `nextWord(text)` of the source with the default whitespace separator:
first whitespace-delimited token, and the stripped remainder. -/
def nextWordWS (text : Str) : Str × Str :=
  let t := text.dropWhile pyIsSpace
  (t.takeWhile (fun c => !pyIsSpace c), pyStrip (t.dropWhile (fun c => !pyIsSpace c)))

/-- `nextWord(text, sep)` of the source with an explicit one-character separator:
both halves are stripped, and the remainder is empty when `sep` does not occur. -/
def nextWordSep (sep : Char) (text : Str) : Str × Str :=
  match splitFirst sep text with
  | none => (pyStrip text, [])
  | some p => (pyStrip p.1, pyStrip p.2)

/-- Python `''.join(s.split())`: remove every whitespace character. -/
def removeWS (s : Str) : Str := s.filter (fun c => !pyIsSpace c)

/-- The Python exceptions the source can raise, tagged by raise site.
`loopFuel` is the fuel-exhaustion marker of the loop embeddings; it is
unreachable from the entry points because fuel starts at `length + 1` and
every iteration strictly shrinks the string. -/
inductive PyErr where
  | unknownField (k : Str)
  | unknownArg (k : Str)
  | keyError (k : Str)
  | indexError
  | tableNotFound (t : Str)
  | nameError
  | valueError (s : Str)
  | typeError
  | loopFuel
deriving DecidableEq

/-- Locate the match of the greedy pattern `(.*)\$([0-9]+)(.*)`: the last `'$'`
that is directly followed by a digit, together with the maximal digit run after
it; returns `(before, digits, after)`. -/
def dollarFind : Str → Option (Str × Str × Str)
  | [] => none
  | c :: cs =>
    match dollarFind cs with
    | some p => some (c :: p.1, p.2.1, p.2.2)
    | none =>
      if c = '$' && (match cs with | d :: _ => d.isDigit | [] => false) then
        some ([], cs.takeWhile Char.isDigit, cs.dropWhile Char.isDigit)
      else none

/-- The `name$index` → `name[index]` rewrite of `TableKeyInstance.set`. -/
def rewriteKey (s : Str) : Str :=
  match dollarFind s with
  | some p => p.1 ++ '[' :: p.2.1 ++ ']' :: p.2.2
  | none => s

/-- `value.replace("*", "0")` on a single character. -/
def zeroStar (c : Char) : Char := if c = '*' then '0' else c

/-- The character translation built by `maketrans("0123456789*", mask*10 + "0")`:
decimal digits map to the mask digit, `'*'` maps to `'0'`, everything else is
left unchanged. -/
def maskChar (mc : Char) (c : Char) : Char :=
  if c.isDigit then mc else if c = '*' then '0' else c

/-- `TableKeyInstance.makeMask`.  In non-ternary mode the value passes through.
In ternary mode a `0x`/`0b`/`0o` prefix selects the mask digit; a value with
none of the three prefixes leaves the local variables `mask`/`prefix`
unassigned, so Python raises `UnboundLocalError` (modelled as `nameError`). -/
def makeMask (value : Str) (ternary : Bool) : Except PyErr Str :=
  if ternary = false then .ok value
  else if value.take 2 = ['0', 'x'] then
    .ok (['0', 'x'] ++ (value.drop 2).map zeroStar ++ ['&', '&', '&'] ++
         ['0', 'x'] ++ (value.drop 2).map (maskChar 'F'))
  else if value.take 2 = ['0', 'b'] then
    .ok (['0', 'b'] ++ (value.drop 2).map zeroStar ++ ['&', '&', '&'] ++
         ['0', 'b'] ++ (value.drop 2).map (maskChar '1'))
  else if value.take 2 = ['0', 'o'] then
    .ok (['0', 'o'] ++ (value.drop 2).map zeroStar ++ ['&', '&', '&'] ++
         ['0', 'o'] ++ (value.drop 2).map (maskChar '7'))
  else .error .nameError

structure BMV2ActionArg where
  name : Str
  width : Nat
deriving DecidableEq

structure BMV2Action where
  name : Str
  args : List BMV2ActionArg
deriving DecidableEq

structure TableKey where
  fields : List Str
  ternary : Bool
deriving DecidableEq

/-- A table of the loaded program: `actions` is the `action name → id`
dictionary, modelled as an association list with unique keys. -/
structure BMV2Table where
  name : Str
  key : TableKey
  actions : List (Str × Nat)
deriving DecidableEq

/-- `TableKeyInstance`: the per-command key slots, a dictionary from field name
to rendered value.  The constructor fills every declared field. -/
structure TableKeyInstance where
  key : TableKey
  values : Str → Option Str

/-- The `TableKeyInstance.__init__` loop: every field starts at
`makeMask("0x*", ternary)`. -/
def TableKeyInstance.init (tk : TableKey) : Except PyErr TableKeyInstance :=
  (tk.fields.foldlM
    (fun vals f =>
      (makeMask ['0', 'x', '*'] tk.ternary).map
        (fun v => Function.update vals f (some v)))
    (fun _ => (none : Option Str))).map
  (fun vals => ⟨tk, vals⟩)

/-- `TableKeyInstance.set`: rewrite `name$index`, check the field is declared
(raising otherwise), then store the masked value. -/
def TableKeyInstance.set (ki : TableKeyInstance) (k v : Str) (ternary : Bool) :
    Except PyErr TableKeyInstance :=
  let key := rewriteKey k
  if key ∈ ki.key.fields then
    (makeMask v ternary).map
      (fun mv => ⟨ki.key, Function.update ki.values key (some mv)⟩)
  else .error (.unknownField key)

/-- The `__str__` joining loop shared by keys and action arguments: walk the
declared order, separating with one space (no space after an empty prefix);
a missing dictionary entry raises `KeyError`. -/
def renderJoin (vals : Str → Option Str) : List Str → Str → Except PyErr Str
  | [], result => .ok result
  | f :: fs, result =>
    match vals f with
    | none => .error (.keyError f)
    | some v => renderJoin vals fs (if result = [] then v else result ++ ' ' :: v)

/-- `TableKeyInstance.__str__`. -/
def TableKeyInstance.render (ki : TableKeyInstance) : Except PyErr Str :=
  renderJoin ki.values ki.key.fields []

/-- `BMV2ActionArguments`: argument slots of one action; the dictionary starts
empty. -/
structure BMV2ActionArguments where
  action : BMV2Action
  values : Str → Option Str

def BMV2Action.makeArgsInstance (a : BMV2Action) : BMV2ActionArguments :=
  ⟨a, fun _ => none⟩

/-- `BMV2ActionArguments.set`: check the name is a declared argument
(raising otherwise), then store the value. -/
def BMV2ActionArguments.set (aa : BMV2ActionArguments) (k v : Str) :
    Except PyErr BMV2ActionArguments :=
  if aa.action.args.any (fun i => i.name == k) then
    .ok ⟨aa.action, Function.update aa.values k (some v)⟩
  else .error (.unknownArg k)

/-- `BMV2ActionArguments.__str__`: declared argument order. -/
def BMV2ActionArguments.render (aa : BMV2ActionArguments) : Except PyErr Str :=
  renderJoin aa.values (aa.action.args.map (fun a => a.name)) []

def BMV2ActionArguments.size (aa : BMV2ActionArguments) : Nat :=
  aa.action.args.length

/-- Python dictionary lookup on the action-name → id association list. -/
def lookupAssoc (l : List (Str × Nat)) (k : Str) : Option Nat :=
  match l.find? (fun p => p.1 == k) with
  | some p => some p.2
  | none => none

/-- `RunBMV2.actionByName`: `table.actions[actionName]` (KeyError when the
action is not associated with the table) then `self.actions[id]`. -/
def actionByName (actions : List BMV2Action) (table : BMV2Table)
    (actionName : Str) : Except PyErr BMV2Action :=
  match lookupAssoc table.actions actionName with
  | none => .error (.keyError actionName)
  | some i =>
    match actions.get? i with
    | none => .error .indexError
    | some a => .ok a

/-- `RunBMV2.tableByName`: linear search, raising when absent. -/
def tableByName (tables : List BMV2Table) (tableName : Str) :
    Except PyErr BMV2Table :=
  match tables.find? (fun t => t.name == tableName) with
  | some t => .ok t
  | none => .error (.tableNotFound tableName)

/-- `re.match("[0-9]+", s) is not None`: the regex is only anchored at the
start, so it succeeds exactly when the first character is a decimal digit. -/
def pyMatchNumber (s : Str) : Bool :=
  match s with
  | [] => false
  | c :: _ => c.isDigit

/-- Numeric value of a digit string. -/
def strToNat (s : Str) : Nat := s.foldl (fun n c => n * 10 + (c.toNat - 48)) 0

/-- Python `int(s)` restricted to the stripped, sign-free tokens it is applied
to here: succeeds exactly on nonempty all-digit strings. -/
def pyInt (s : Str) : Except PyErr Nat :=
  if s ≠ [] ∧ s.all Char.isDigit = true then .ok (strToNat s)
  else .error (.valueError s)

/-- Decimal digits of a natural number. -/
def natDigits (n : Nat) : Str := Nat.toDigits 10 n

/-- Python `str` of an integer. -/
def pyStrOfInt (i : Int) : Str :=
  match i with
  | .ofNat n => natDigits n
  | .negSucc m => '-' :: natDigits (m + 1)

/-- The argument-assignment loop of `parse_table_set_default` (fuel-indexed). -/
def setDefaultArgsLoopF : Nat → BMV2ActionArguments → Str →
    Except PyErr BMV2ActionArguments
  | _, aa, [] => .ok aa
  | 0, _, _ :: _ => .error .loopFuel
  | fuel + 1, aa, c :: cs =>
    let cmd := c :: cs
    let word := (nextWordSep ',' cmd).1
    let cmd' := (nextWordSep ',' cmd).2
    let k := (nextWordSep ':' word).1
    let v := (nextWordSep ':' word).2
    match aa.set k v with
    | .error e => .error e
    | .ok aa' => setDefaultArgsLoopF fuel aa' cmd'

def setDefaultArgsLoop (aa : BMV2ActionArguments) (cmd : Str) :
    Except PyErr BMV2ActionArguments :=
  setDefaultArgsLoopF (cmd.length + 1) aa cmd

/-- `RunBMV2.parse_table_set_default`. -/
def parse_table_set_default (tables : List BMV2Table)
    (actions : List BMV2Action) (cmd : Str) : Except PyErr Str :=
  let tableName := (nextWordWS cmd).1
  let cmd1 := (nextWordWS cmd).2
  match tableByName tables tableName with
  | .error e => .error e
  | .ok table =>
    let actionName := (nextWordSep '(' cmd1).1
    let cmd2 := (nextWordSep '(' cmd1).2
    match actionByName actions table actionName with
    | .error e => .error e
    | .ok action =>
      match setDefaultArgsLoop action.makeArgsInstance (pyStripChars [')'] cmd2) with
      | .error e => .error e
      | .ok actionArgs =>
        let command :=
          "table_set_default ".toList ++ tableName ++ ' ' :: actionName
        if actionArgs.size ≠ 0 then
          match actionArgs.render with
          | .error e => .error e
          | .ok s => .ok (command ++ " => ".toList ++ s)
        else .ok command

/-- The key/action-argument loop of `parse_table_add` (fuel-indexed).  The
accumulator is `none` while still parsing key assignments and
`some (actionName, args)` once the `(`-carrying action word has been seen. -/
def addLoopF (actions : List BMV2Action) (table : BMV2Table) (ternary : Bool) :
    Nat → Str → TableKeyInstance → Option (Str × BMV2ActionArguments) →
    Except PyErr (TableKeyInstance × Option (Str × BMV2ActionArguments))
  | _, [], key, acc => .ok (key, acc)
  | 0, _ :: _, _, _ => .error .loopFuel
  | fuel + 1, c :: cs, key, acc =>
    let cmd := c :: cs
    match acc with
    | some pr =>
      let word := (nextWordSep ',' cmd).1
      let cmd' := (nextWordSep ',' cmd).2
      let k := (nextWordSep ':' word).1
      let v := (nextWordSep ':' word).2
      match pr.2.set k v with
      | .error e => .error e
      | .ok args' => addLoopF actions table ternary fuel cmd' key (some (pr.1, args'))
    | none =>
      let word := (nextWordWS cmd).1
      let cmd' := (nextWordWS cmd).2
      if '(' ∈ word then
        let actionName := (nextWordSep '(' word).1
        let arg := (nextWordSep '(' word).2
        match actionByName actions table actionName with
        | .error e => .error e
        | .ok action =>
          addLoopF actions table ternary fuel
            (pyStripChars ['(', ')'] (arg ++ cmd')) key
            (some (actionName, action.makeArgsInstance))
      else
        let k := (nextWordSep ':' word).1
        let v := (nextWordSep ':' word).2
        match key.set k v ternary with
        | .error e => .error e
        | .ok key' => addLoopF actions table ternary fuel cmd' key' none

def addLoop (actions : List BMV2Action) (table : BMV2Table) (ternary : Bool)
    (cmd : Str) (key : TableKeyInstance)
    (acc : Option (Str × BMV2ActionArguments)) :
    Except PyErr (TableKeyInstance × Option (Str × BMV2ActionArguments)) :=
  addLoopF actions table ternary (cmd.length + 1) cmd key acc

/-- The final string assembly of `parse_table_add`. -/
def addCommandStr (tableName actionName keyStr argStr prioStr : Str) : Str :=
  "table_add ".toList ++ tableName ++ ' ' :: actionName ++ ' ' :: keyStr ++
    " => ".toList ++ argStr ++ ' ' :: prioStr

/-- `RunBMV2.parse_table_add`.  A first token that `re.match("[0-9]+", ...)`
accepts is taken as the priority and forces ternary mask generation; otherwise
the token is pushed back in front of the remaining text and the key is
rendered non-ternary.  A nonempty priority is emitted as `10000 - int(prio)`. -/
def parse_table_add (tables : List BMV2Table) (actions : List BMV2Action)
    (cmd : Str) : Except PyErr Str :=
  let tableName := (nextWordWS cmd).1
  let cmd1 := (nextWordWS cmd).2
  match tableByName tables tableName with
  | .error e => .error e
  | .ok table =>
    match TableKeyInstance.init table.key with
    | .error e => .error e
    | .ok key0 =>
      let prio0 := (nextWordWS cmd1).1
      let cmd2 := (nextWordWS cmd1).2
      let prio := if pyMatchNumber prio0 then prio0 else []
      let ternary := pyMatchNumber prio0
      let cmd3 := if pyMatchNumber prio0 then cmd2 else prio0 ++ ' ' :: cmd2
      match addLoop actions table ternary cmd3 key0 none with
      | .error e => .error e
      | .ok p =>
        match p.2 with
        | none => .error .typeError
        | some pr =>
          match
            (if prio ≠ [] then
              (pyInt prio).map (fun (n : Nat) => pyStrOfInt (10000 - (n : Int)))
            else .ok []) with
          | .error e => .error e
          | .ok prioStr =>
            match TableKeyInstance.render p.1 with
            | .error e => .error e
            | .ok keyStr =>
              match BMV2ActionArguments.render pr.2 with
              | .error e => .error e
              | .ok argStr =>
                .ok (addCommandStr tableName pr.1 keyStr argStr prioStr)

/-- Hex digit value of a character (Python `int(c, 16)` on one digit). -/
def hexCharVal (c : Char) : Option Nat :=
  if c.isDigit then some (c.toNat - 48)
  else if 'a' ≤ c ∧ c ≤ 'f' then some (c.toNat - 87)
  else if 'A' ≤ c ∧ c ≤ 'F' then some (c.toNat - 55)
  else none

/-- `HexToByte`: consume the hex string two characters at a time (a trailing
single character forms its own chunk); a non-hex character raises ValueError. -/
def HexToByte : Str → Except PyErr (List Nat)
  | [] => .ok []
  | [c] =>
    match hexCharVal c with
    | some v => .ok [v]
    | none => .error (.valueError [c])
  | c1 :: c2 :: rest =>
    match hexCharVal c1, hexCharVal c2 with
    | some v1, some v2 => (HexToByte rest).map (fun bs => (v1 * 16 + v2) :: bs)
    | _, _ => .error (.valueError [c1, c2])

/-- Observable events of `do_command`: a line written to the CLI process, a
packet written to an interface fifo after sleeping `delayMs` milliseconds, or
an expectation registration. -/
inductive Ev where
  | cli (cmd : Str)
  | packet (interface : Str) (data : List Nat) (delayMs : Nat)
  | expectation (interface : Str) (data : Str)
deriving DecidableEq

/-- The mutable state of `RunBMV2` that `do_command` touches.  `packetDelay`
is kept in milliseconds (the source stores seconds: `0.1` here is `100`). -/
structure St where
  packetDelay : Nat
  interfaces : List Str
  expected : List (Str × Str)
deriving DecidableEq

/-- `RunBMV2.__init__` sets `packetDelay = 0` and no expectations. -/
def RunBMV2.initSt (interfaces : List Str) : St := ⟨0, interfaces, []⟩

/-- `RunBMV2.do_command` on one (already `#`-stripped) line.  `add` and
`setdefault` go through `do_cli_command`, which sets the settling delay to
100 ms; `packet` sleeps the pending delay (recorded in the event), writes the
bytes and resets the delay to 0; `expect` registers the expectation;
anything else is ignored. -/
def do_command (tables : List BMV2Table) (actions : List BMV2Action)
    (st : St) (line : Str) : Except PyErr (St × List Ev) :=
  let first := (nextWordWS line).1
  let cmd := (nextWordWS line).2
  if first = [] then .ok (st, [])
  else if first = "add".toList then
    match parse_table_add tables actions cmd with
    | .error e => .error e
    | .ok c => .ok ({ st with packetDelay := 100 }, [.cli c])
  else if first = "setdefault".toList then
    match parse_table_set_default tables actions cmd with
    | .error e => .error e
    | .ok c => .ok ({ st with packetDelay := 100 }, [.cli c])
  else if first = "packet".toList then
    let interface := (nextWordWS cmd).1
    let data := removeWS (nextWordWS cmd).2
    if interface ∈ st.interfaces then
      match HexToByte data with
      | .error e => .error e
      | .ok bytes =>
        .ok ({ st with packetDelay := 0 },
             [.packet interface bytes st.packetDelay])
    else .error (.keyError interface)
  else if first = "expect".toList then
    let interface := (nextWordWS cmd).1
    let data := removeWS (nextWordWS cmd).2
    .ok ({ st with expected := st.expected ++ [(interface, data)] },
         [.expectation interface data])
  else .ok (st, [])

/-- The command-streaming loop of `RunBMV2.run`: strip the `#` comment of each
line and feed it to `do_command`, concatenating the events. -/
def runLines (tables : List BMV2Table) (actions : List BMV2Action) :
    St → List Str → Except PyErr (St × List Ev)
  | st, [] => .ok (st, [])
  | st, l :: ls =>
    match do_command tables actions st (nextWordSep '#' l).1 with
    | .error e => .error e
    | .ok p =>
      match runLines tables actions p.1 ls with
      | .error e => .error e
      | .ok q => .ok (q.1, p.2 ++ q.2)

/-- The interface reference a line contributes in
`RunBMV2.generate_model_inputs`: the first token after `packet` or `expect`,
once the `#` comment is stripped. -/
def stfRef (line : Str) : Option Str :=
  let line1 := (nextWordSep '#' line).1
  let first := (nextWordWS line1).1
  let cmd := (nextWordWS line1).2
  if first = "packet".toList ∨ first = "expect".toList then
    some (nextWordWS cmd).1
  else none

/-- `RunBMV2.generate_model_inputs`: walk the STF lines, creating the input
fifo of each referenced interface the first time its name appears; returns the
fifo-creation order. -/
def generate_model_inputs (lines : List Str) : List Str :=
  lines.foldl
    (fun acc line =>
      match stfRef line with
      | none => acc
      | some interface =>
        if interface ∈ acc then acc else acc ++ [interface]) []

/-- All interface references of the STF source, in order, with repetitions. -/
def interfaceRefs (lines : List Str) : List Str := lines.filterMap stfRef

/-- Keep the first occurrence of every element. -/
def dedupKeepFirst : List Str → List Str
  | [] => []
  | x :: xs => x :: dedupKeepFirst (xs.filter (fun y => y ≠ x))
termination_by l => l.length
decreasing_by
  simp only [List.length_cons]
  exact Nat.lt_succ_of_le (List.length_filter_le _ _)

/-- Python 2 string comparison on the interface names: lexicographic by
character code, a strict prefix comparing smaller. -/
def strLe : Str → Str → Bool
  | [], _ => true
  | _ :: _, [] => false
  | a :: as, b :: bs =>
    if a.toNat < b.toNat then true
    else if b.toNat < a.toNat then false
    else strLe as bs

/-- The order in which `RunBMV2.run` opens the input fifos:
`sorted(self.interfaces)`, i.e. the interface names in ascending
lexicographic order. -/
def openOrder (interfaces : List Str) : List Str :=
  interfaces.insertionSort (fun a b => strLe a b = true)

/-- Classification of an STF line by its effect on the packet delay. -/
inductive LineKind where
  | ctrl
  | pkt
  | other
deriving DecidableEq

def lineKind (line : Str) : LineKind :=
  let first := (nextWordWS (nextWordSep '#' line).1).1
  if first = "add".toList ∨ first = "setdefault".toList then .ctrl
  else if first = "packet".toList then .pkt
  else .other

/-- The settling delays the specification predicts for the packet lines of a
source, given the pending delay: a control-plane command arms a 100 ms delay,
a packet injection consumes the pending delay and resets it to zero, any other
line leaves it unchanged. -/
def delaysSpec (pending : Nat) : List Str → List Nat
  | [] => []
  | l :: ls =>
    match lineKind l with
    | .ctrl => delaysSpec 100 ls
    | .pkt => pending :: delaysSpec 0 ls
    | .other => delaysSpec pending ls

/-- The pending delay left after processing the lines. -/
def pendingAfter (pending : Nat) : List Str → Nat
  | [] => pending
  | l :: ls =>
    match lineKind l with
    | .ctrl => pendingAfter 100 ls
    | .pkt => pendingAfter 0 ls
    | .other => pendingAfter pending ls

/-- The delays actually slept before each packet write, in order. -/
def packetDelays (evs : List Ev) : List Nat :=
  evs.filterMap (fun e => match e with | .packet _ _ d => some d | _ => none)

/-- Uppercase hex digit of a value below 16 (the `"%02X"` format). -/
def hexDigitChar (n : Nat) : Char :=
  if n < 10 then Char.ofNat (48 + n) else Char.ofNat (55 + n)

/-- Two-digit uppercase hex rendering of one byte. -/
def byteToHex2 (b : Nat) : Str := [hexDigitChar (b / 16 % 16), hexDigitChar (b % 16)]

/-- `''.join(ByteToHex(bytes).split())`: the concatenated two-digit uppercase
hex renderings of the packet bytes, with the separating spaces removed. -/
def ByteToHexJoined (bytes : List Nat) : Str := (bytes.map byteToHex2).flatten

/-- The processed expected string of `comparePacket`:
`''.join(expected.split()).upper()`. -/
def expProc (expected : Str) : Str := (removeWS expected).map Char.toUpper

/-- The processed received string of `comparePacket`:
`''.join(ByteToHex(received).split()).upper()`. -/
def recvProc (bytes : List Nat) : Str :=
  (removeWS (ByteToHexJoined bytes)).map Char.toUpper

/-- Result of `comparePacket`, with the reported diagnostics. -/
inductive CmpResult where
  | success
  | tooShort (lenReceived lenExpected : Nat)
  | mismatch (i : Nat) (e r : Char)
deriving DecidableEq

/-- The position-by-position loop of `comparePacket`, carrying the current
index.  The `(_ :: _, [])` case is unreachable under the length guard. -/
def cmpChars : Str → Str → Nat → CmpResult
  | [], _, _ => .success
  | _ :: _, [], _ => .success
  | e :: es, r :: rs, i =>
    if e = '*' then cmpChars es rs (i + 1)
    else if e ≠ r then .mismatch i e r
    else cmpChars es rs (i + 1)

/-- `RunBMV2.comparePacket`: uppercase separator-free hex comparison, `'*'`
matching anything, a too-short received packet failing up front, and trailing
extra received characters never compared. -/
def comparePacket (expected : Str) (receivedBytes : List Nat) : CmpResult :=
  let received := recvProc receivedBytes
  let expd := expProc expected
  if received.length < expd.length then .tooShort received.length expd.length
  else cmpChars expd received 0

/-- `ConcurrentInteger.lockName`. -/
def lockName (v : Nat) : Str := "lock_".toList ++ natDigits v

/-- The retry loop of `ConcurrentInteger.generate`, attempt `i` with
`remaining` tries left.  `occupied n` models "the directory `lock_n` already
exists" (the atomic create-if-absent fails exactly then); `draws i` is the
value `random.randint(0, max)` returns on attempt `i`.  The second component
counts the seconds slept (one per collision). -/
def generateGo (occupied : Nat → Bool) (draws : Nat → Nat) :
    Nat → Nat → Option Nat × Nat
  | _, 0 => (none, 0)
  | i, r + 1 =>
    if occupied (draws i) then
      let p := generateGo occupied draws (i + 1) r
      (p.1, p.2 + 1)
    else (some (draws i), 0)

/-- `ConcurrentInteger.generate`: up to 10 attempts. -/
def ConcurrentInteger.generate (occupied : Nat → Bool) (draws : Nat → Nat) :
    Option Nat × Nat :=
  generateGo occupied draws 0 10

/-- The sequence of `TableKeyInstance.set` calls the add-statement loop
performs for a list of `field:value` assignments. -/
def applyKeys (ki : TableKeyInstance) (ternary : Bool)
    (assigns : List (Str × Str)) : Except PyErr TableKeyInstance :=
  assigns.foldlM (fun k p => k.set p.1 p.2 ternary) ki

/-- The sequence of `BMV2ActionArguments.set` calls performed for a list of
`argname:value` assignments. -/
def applyArgs (aa : BMV2ActionArguments) (assigns : List (Str × Str)) :
    Except PyErr BMV2ActionArguments :=
  assigns.foldlM (fun a p => a.set p.1 p.2) aa

/-- The pure effect of one successful key assignment on the values dictionary. -/
def maskD (ternary : Bool) (v : Str) : Str :=
  match makeMask v ternary with
  | .ok m => m
  | .error _ => []

def keyUpd (ternary : Bool) (vals : Str → Option Str) (p : Str × Str) :
    Str → Option Str :=
  Function.update vals (rewriteKey p.1) (some (maskD ternary p.2))

def argUpd (vals : Str → Option Str) (p : Str × Str) : Str → Option Str :=
  Function.update vals p.1 (some p.2)

/-! ## Theorems -/

theorem exceptMap_ok {ε α β : Type} (f : α → β) (a : α) :
    (Except.ok a : Except ε α).map f = .ok (f a) := rfl

theorem exceptMap_error {ε α β : Type} (f : α → β) (e : ε) :
    (Except.error e : Except ε α).map f = .error e := rfl

theorem addCommandStr_suffix (tn an ks as ps : Str) :
    (' ' :: ps).IsSuffix (addCommandStr tn an ks as ps) :=
  ⟨"table_add ".toList ++ tn ++ ' ' :: an ++ ' ' :: ks ++ " => ".toList ++ as, by
    simp [addCommandStr]⟩

theorem pyMatchNumber_ne_nil {s : Str} (h : pyMatchNumber s = true) : s ≠ [] := by
  cases s with
  | nil => simp [pyMatchNumber] at h
  | cons c cs => simp

theorem makeMask_unprefixed (v : Str)
    (h1 : v.take 2 ≠ ['0', 'x']) (h2 : v.take 2 ≠ ['0', 'b'])
    (h3 : v.take 2 ≠ ['0', 'o']) : makeMask v true = .error .nameError := by
  simp [makeMask, h1, h2, h3]

/-- C1 counterexample: on the ternary value `0xA*` the source renders
`0xA0&&&0xA0` — the wildcard position contributes `0` (not `F`) to the mask,
and the hex letter `A` is copied (not replaced by `F`) into the mask — whereas
the claim predicts `0xA0&&&0xFF`. -/
theorem mask_star_counterexample :
    makeMask ['0', 'x', 'A', '*'] true = .ok ("0xA0&&&0xA0".toList) ∧
    makeMask ['0', 'x', 'A', '*'] true ≠ .ok ("0xA0&&&0xFF".toList) := by
  constructor
  · decide
  · decide

/-- C1 (amended): for a ternary value with a `0x`/`0b`/`0o` prefix the render
is `<prefix><value'>&&&<prefix><mask>` computed position by position from the
digit string: a decimal digit is kept in the value and contributes the maximal
mask digit of the radix (`F`/`1`/`7`); a `*` contributes `0` to both the value
and the mask; any other character (e.g. a hex letter) is copied unchanged into
both. -/
theorem mask_rendering_amended (pfx : Str) (mc : Char) (d : Str)
    (h : (pfx = ['0', 'x'] ∧ mc = 'F') ∨ (pfx = ['0', 'b'] ∧ mc = '1') ∨
         (pfx = ['0', 'o'] ∧ mc = '7')) :
    makeMask (pfx ++ d) true =
      .ok (pfx ++ d.map zeroStar ++ ['&', '&', '&'] ++ pfx ++ d.map (maskChar mc)) ∧
    (∀ (i : Nat) (c : Char), d[i]? = some c → c = '*' →
      (d.map zeroStar)[i]? = some '0' ∧
      (d.map (maskChar mc))[i]? = some '0') ∧
    (∀ (i : Nat) (c : Char), d[i]? = some c → c.isDigit = true →
      (d.map zeroStar)[i]? = some c ∧
      (d.map (maskChar mc))[i]? = some mc) ∧
    (∀ (i : Nat) (c : Char), d[i]? = some c → c ≠ '*' → c.isDigit = false →
      (d.map zeroStar)[i]? = some c ∧
      (d.map (maskChar mc))[i]? = some c) := by
  refine ⟨?_, ?_, ?_, ?_⟩
  · rcases h with ⟨h1, h2⟩ | ⟨h1, h2⟩ | ⟨h1, h2⟩ <;> subst h1 <;> subst h2 <;>
      simp [makeMask]
  · intro i c hc hstar
    subst hstar
    simp [List.getElem?_map, hc, zeroStar, maskChar]
  · intro i c hc hdig
    have hne : c ≠ '*' := by
      intro e; subst e; simp at hdig
    simp [List.getElem?_map, hc, zeroStar, maskChar, hdig, hne]
  · intro i c hc hne hdig
    simp [List.getElem?_map, hc, zeroStar, maskChar, hdig, hne]

/-- Witness for C1 (amended) at the hex value `0x5*A`. -/
theorem mask_rendering_amended_witness :
    makeMask ("0x5*A".toList) true = .ok ("0x50A&&&0xF0A".toList) :=
  (mask_rendering_amended ['0', 'x'] 'F' ['5', '*', 'A']
    (Or.inl ⟨rfl, rfl⟩)).1

/-- C10: ternary mask rendering is only total on `0x`/`0b`/`0o`-prefixed
values: without one of the three prefixes `makeMask` raises (`mask`/`prefix`
are never assigned, so Python hits an unbound local), `TableKeyInstance.set`
of a declared field propagates the error, and the add-statement key loop in
ternary mode fails on such an assignment instead of producing a
`value&&&mask` string. -/
theorem ternary_unprefixed_fails :
    (∀ v : Str, v.take 2 ≠ ['0', 'x'] → v.take 2 ≠ ['0', 'b'] →
      v.take 2 ≠ ['0', 'o'] → makeMask v true = .error .nameError) ∧
    (∀ (ki : TableKeyInstance) (k v : Str), rewriteKey k ∈ ki.key.fields →
      v.take 2 ≠ ['0', 'x'] → v.take 2 ≠ ['0', 'b'] → v.take 2 ≠ ['0', 'o'] →
      ki.set k v true = .error .nameError) ∧
    (∀ (actions : List BMV2Action) (table : BMV2Table)
      (key : TableKeyInstance) (c : Char) (cs : Str),
      '(' ∉ (nextWordWS (c :: cs)).1 →
      rewriteKey (nextWordSep ':' (nextWordWS (c :: cs)).1).1 ∈ key.key.fields →
      (nextWordSep ':' (nextWordWS (c :: cs)).1).2.take 2 ≠ ['0', 'x'] →
      (nextWordSep ':' (nextWordWS (c :: cs)).1).2.take 2 ≠ ['0', 'b'] →
      (nextWordSep ':' (nextWordWS (c :: cs)).1).2.take 2 ≠ ['0', 'o'] →
      addLoop actions table true (c :: cs) key none = .error .nameError) := by
  refine ⟨makeMask_unprefixed, ?_, ?_⟩
  · intro ki k v hmem h1 h2 h3
    simp [TableKeyInstance.set, hmem, makeMask_unprefixed v h1 h2 h3, Except.map]
  · intro actions table key c cs hpar hmem h1 h2 h3
    have hset := by
      exact (show TableKeyInstance.set key (nextWordSep ':' (nextWordWS (c :: cs)).1).1
        (nextWordSep ':' (nextWordWS (c :: cs)).1).2 true = .error .nameError from by
          simp [TableKeyInstance.set, hmem,
            makeMask_unprefixed _ h1 h2 h3, Except.map])
    simp only [addLoop, List.length_cons]
    simp only [addLoopF, hpar, if_false, hset]

/-- Witness for C10: the unprefixed ternary value `12*` fails mask rendering,
and a ternary key assignment `f:12*` to a declared field `f` fails the add
loop. -/
theorem ternary_unprefixed_fails_witness :
    makeMask ("12*".toList) true = .error .nameError ∧
    addLoop [] ⟨[], ⟨[], false⟩, []⟩ true ("f:12*".toList)
      ⟨⟨[['f']], false⟩, fun _ => none⟩ none = .error .nameError :=
  ⟨ternary_unprefixed_fails.1 ("12*".toList) (by decide) (by decide) (by decide),
   ternary_unprefixed_fails.2.2 [] ⟨[], ⟨[], false⟩, []⟩
     ⟨⟨[['f']], false⟩, fun _ => none⟩ 'f' (":12*".toList)
     (by decide) (by decide) (by decide) (by decide) (by decide)⟩

/-- C2: when the token after the table name is a nonempty all-digit string of
value `p`, a successful `parse_table_add` emits a command string ending in a
space followed by the decimal rendering of `10000 - p`. -/
theorem parse_table_add_priority_inverted (tables : List BMV2Table)
    (actions : List BMV2Action) (cmd : Str) (p : Nat) (s : Str)
    (hne : (nextWordWS (nextWordWS cmd).2).1 ≠ [])
    (hdig : (nextWordWS (nextWordWS cmd).2).1.all Char.isDigit = true)
    (hval : strToNat (nextWordWS (nextWordWS cmd).2).1 = p)
    (hok : parse_table_add tables actions cmd = .ok s) :
    (' ' :: pyStrOfInt (10000 - (p : Int))).IsSuffix s := by
  have hmatch : pyMatchNumber (nextWordWS (nextWordWS cmd).2).1 = true := by
    rcases h : (nextWordWS (nextWordWS cmd).2).1 with _ | ⟨c, cs⟩
    · exact absurd h hne
    · rw [h] at hdig
      simp only [List.all_cons, Bool.and_eq_true] at hdig
      simp [pyMatchNumber, hdig.1]
  simp only [parse_table_add, hmatch, if_true] at hok
  have hint : pyInt (nextWordWS (nextWordWS cmd).2).1 =
      .ok (strToNat (nextWordWS (nextWordWS cmd).2).1) := by
    simp [pyInt, hne, hdig]
  rw [if_pos hne, hint] at hok
  subst hval
  split at hok
  · exact absurd hok (by simp)
  · split at hok
    · exact absurd hok (by simp)
    · split at hok
      · exact absurd hok (by simp)
      · split at hok
        · exact absurd hok (by simp)
        · rw [exceptMap_ok] at hok
          split at hok
          · exact absurd hok (by simp)
          · split at hok
            · exact absurd hok (by simp)
            · split at hok
              · exact absurd hok (by simp)
              · injection hok with hs
                subst hs
                simp_all only [Except.ok.injEq]
                exact addCommandStr_suffix _ _ _ _ _

/-- Witness for C2: `add T 5 f:0x1 a()` emits a command ending in ` 9995`. -/
theorem parse_table_add_priority_inverted_witness :
    (' ' :: pyStrOfInt (10000 - ((5 : Nat) : Int))).IsSuffix
      ("table_add T a 0x1&&&0xF =>  9995".toList) :=
  parse_table_add_priority_inverted
    [⟨['T'], ⟨[['f']], false⟩, [(['a'], 0)]⟩] [⟨['a'], []⟩]
    ("T 5 f:0x1 a()".toList) 5 ("table_add T a 0x1&&&0xF =>  9995".toList)
    (by decide) (by decide) (by decide) (by decide)

/-- C6 counterexample: in `add T 1x a()` the token `1x` is not a pure
non-negative integer, yet it is *not* pushed back as the key assignment
`1x:` (which would succeed here, the table declares the field `1x`, yielding
`table_add T a  =>  `): `re.match("[0-9]+", "1x")` succeeds on the digit
prefix, the token is consumed as a priority, and `int("1x")` then raises
ValueError. -/
theorem digit_initial_token_counterexample :
    parse_table_add [⟨['T'], ⟨[['1', 'x']], false⟩, [(['a'], 0)]⟩]
      [⟨['a'], []⟩] ("T 1x a()".toList) = .error (.valueError ['1', 'x']) ∧
    parse_table_add [⟨['T'], ⟨[['1', 'x']], false⟩, [(['a'], 0)]⟩]
      [⟨['a'], []⟩] ("T 1x a()".toList) ≠ .ok ("table_add T a  =>  ".toList) := by
  constructor
  · decide
  · decide

/-- C6 (amended): a priority is recognized exactly when the first token after
the table name *begins with* a decimal digit (the anchored-prefix regex
`[0-9]+`), not when it is a pure integer.  A digit-initial token that is not
all digits is still consumed as a priority and makes translation fail at the
integer conversion (no command is ever emitted).  A token that does not begin
with a digit is pushed back as the first key assignment and the key is
rendered in non-ternary mode with an empty emitted priority; a digit-initial
token is consumed and the rest is parsed in ternary mode. -/
theorem priority_recognition_amended (tables : List BMV2Table)
    (actions : List BMV2Action) (cmd : Str) :
    (pyMatchNumber (nextWordWS (nextWordWS cmd).2).1 = true →
      (nextWordWS (nextWordWS cmd).2).1.all Char.isDigit = false →
      ∀ s, parse_table_add tables actions cmd ≠ .ok s) ∧
    (pyMatchNumber (nextWordWS (nextWordWS cmd).2).1 = false →
      parse_table_add tables actions cmd =
        match tableByName tables (nextWordWS cmd).1 with
        | .error e => .error e
        | .ok table =>
          match TableKeyInstance.init table.key with
          | .error e => .error e
          | .ok key0 =>
            match addLoop actions table false
                ((nextWordWS (nextWordWS cmd).2).1 ++
                  ' ' :: (nextWordWS (nextWordWS cmd).2).2) key0 none with
            | .error e => .error e
            | .ok p =>
              match p.2 with
              | none => .error .typeError
              | some pr =>
                match TableKeyInstance.render p.1 with
                | .error e => .error e
                | .ok keyStr =>
                  match BMV2ActionArguments.render pr.2 with
                  | .error e => .error e
                  | .ok argStr =>
                    .ok (addCommandStr (nextWordWS cmd).1 pr.1 keyStr argStr [])) ∧
    (pyMatchNumber (nextWordWS (nextWordWS cmd).2).1 = true →
      parse_table_add tables actions cmd =
        match tableByName tables (nextWordWS cmd).1 with
        | .error e => .error e
        | .ok table =>
          match TableKeyInstance.init table.key with
          | .error e => .error e
          | .ok key0 =>
            match addLoop actions table true (nextWordWS (nextWordWS cmd).2).2
                key0 none with
            | .error e => .error e
            | .ok p =>
              match p.2 with
              | none => .error .typeError
              | some pr =>
                match (pyInt ((nextWordWS (nextWordWS cmd).2).1)).map
                    (fun (n : Nat) => pyStrOfInt (10000 - (n : Int))) with
                | .error e => .error e
                | .ok prioStr =>
                  match TableKeyInstance.render p.1 with
                  | .error e => .error e
                  | .ok keyStr =>
                    match BMV2ActionArguments.render pr.2 with
                    | .error e => .error e
                    | .ok argStr =>
                      .ok (addCommandStr (nextWordWS cmd).1 pr.1 keyStr argStr prioStr)) := by
  refine ⟨?_, ?_, ?_⟩
  · intro h hnd s hok
    simp only [parse_table_add, h, if_true] at hok
    rw [if_pos (pyMatchNumber_ne_nil h)] at hok
    have herr : pyInt (nextWordWS (nextWordWS cmd).2).1 =
        .error (.valueError (nextWordWS (nextWordWS cmd).2).1) := by
      simp [pyInt, hnd]
    rw [herr, exceptMap_error] at hok
    split at hok
    · exact absurd hok (by simp)
    · split at hok
      · exact absurd hok (by simp)
      · split at hok
        · exact absurd hok (by simp)
        · split at hok
          · exact absurd hok (by simp)
          · simp at hok
  · intro h
    simp only [parse_table_add, h, Bool.false_eq_true, if_false, ne_eq,
      not_true_eq_false]
  · intro h
    simp only [parse_table_add, h, if_true]
    rw [if_pos (pyMatchNumber_ne_nil h)]

/-- Witness for C6 (amended): the digit-initial non-integer token `1x` never
yields a command, and the non-digit-initial token `f:0x1` is pushed back and
parsed as a non-ternary key assignment. -/
theorem priority_recognition_amended_witness :
    parse_table_add [⟨['T'], ⟨[['1', 'x']], false⟩, [(['a'], 0)]⟩]
      [⟨['a'], []⟩] ("T 1x a()".toList) ≠ .ok [] ∧
    parse_table_add [⟨['T'], ⟨[['f']], false⟩, [(['a'], 0)]⟩]
      [⟨['a'], []⟩] ("T f:0x1 a()".toList) =
      .ok ("table_add T a 0x1 =>  ".toList) := by
  constructor
  · exact (priority_recognition_amended _ _ _).1 (by decide) (by decide) []
  · rw [(priority_recognition_amended [⟨['T'], ⟨[['f']], false⟩, [(['a'], 0)]⟩]
      [⟨['a'], []⟩] ("T f:0x1 a()".toList)).2.1 (by decide)]
    decide

/-- C5: an undeclared key field, an action not associated with the table, and
an undeclared action argument each raise their corresponding error
(`unknownField`, KeyError on the table's action dictionary, `unknownArg`),
and an `add`/`setdefault` statement whose translation raises makes
`do_command` fail with that error, emitting no command and producing no
event. -/
theorem unknown_name_errors :
    (∀ (ki : TableKeyInstance) (k v : Str) (ternary : Bool),
      rewriteKey k ∉ ki.key.fields →
      ki.set k v ternary = .error (.unknownField (rewriteKey k))) ∧
    (∀ (actions : List BMV2Action) (table : BMV2Table) (an : Str),
      (∀ p ∈ table.actions, p.1 ≠ an) →
      actionByName actions table an = .error (.keyError an)) ∧
    (∀ (aa : BMV2ActionArguments) (k v : Str),
      (∀ a ∈ aa.action.args, a.name ≠ k) →
      aa.set k v = .error (.unknownArg k)) ∧
    (∀ (tables : List BMV2Table) (actions : List BMV2Action) (st : St)
      (line : Str) (e : PyErr),
      (nextWordWS line).1 = "add".toList →
      parse_table_add tables actions (nextWordWS line).2 = .error e →
      do_command tables actions st line = .error e) ∧
    (∀ (tables : List BMV2Table) (actions : List BMV2Action) (st : St)
      (line : Str) (e : PyErr),
      (nextWordWS line).1 = "setdefault".toList →
      parse_table_set_default tables actions (nextWordWS line).2 = .error e →
      do_command tables actions st line = .error e) := by
  refine ⟨?_, ?_, ?_, ?_, ?_⟩
  · intro ki k v ternary h
    simp [TableKeyInstance.set, h]
  · intro actions table an h
    have hf : table.actions.find? (fun p => p.1 == an) = none := by
      rw [List.find?_eq_none]
      intro x hx
      simpa using h x hx
    simp [actionByName, lookupAssoc, hf]
  · intro aa k v h
    have hany : ¬(aa.action.args.any (fun i => i.name == k) = true) := by
      simp only [List.any_eq_true, beq_iff_eq]
      rintro ⟨a, ha, hk⟩
      exact h a ha hk
    simp [BMV2ActionArguments.set, hany]
  · intro tables actions st line e h1 h2
    simp [do_command, h1, h2]
  · intro tables actions st line e h1 h2
    simp [do_command, h1, h2]

/-- Witness for C5 at concrete unknown names. -/
theorem unknown_name_errors_witness :
    TableKeyInstance.set ⟨⟨[['f']], false⟩, fun _ => none⟩ ['g'] ['1'] false =
      .error (.unknownField (rewriteKey ['g'])) ∧
    actionByName [] ⟨['T'], ⟨[], false⟩, [(['a'], 0)]⟩ ['b'] =
      .error (.keyError ['b']) ∧
    BMV2ActionArguments.set ⟨⟨['a'], [⟨['x'], 8⟩]⟩, fun _ => none⟩ ['y'] ['1'] =
      .error (.unknownArg ['y']) ∧
    do_command [] [] ⟨0, [], []⟩ ("add T f:0x1 a()".toList) =
      .error (.tableNotFound ['T']) ∧
    do_command [] [] ⟨0, [], []⟩ ("setdefault T a()".toList) =
      .error (.tableNotFound ['T']) :=
  ⟨unknown_name_errors.1 _ _ _ _ (by decide),
   unknown_name_errors.2.1 _ _ _ (by decide),
   unknown_name_errors.2.2.1 _ _ _ (by decide),
   unknown_name_errors.2.2.2.1 _ _ _ _ _ (by decide) (by decide),
   unknown_name_errors.2.2.2.2 _ _ _ _ _ (by decide) (by decide)⟩

theorem cmpChars_success_iff (es : Str) : ∀ (rs : Str) (i : Nat),
    es.length ≤ rs.length →
    (cmpChars es rs i = .success ↔
      ∀ (j : Nat) (c c' : Char), es[j]? = some c → rs[j]? = some c' →
        c = '*' ∨ c = c') := by
  induction es with
  | nil =>
    intro rs i _
    simp [cmpChars]
  | cons e es ih =>
    intro rs i h
    cases rs with
    | nil => simp at h
    | cons r rs =>
      simp only [List.length_cons, Nat.succ_le_succ_iff] at h
      by_cases hstar : e = '*'
      · subst hstar
        rw [show cmpChars ('*' :: es) (r :: rs) i = cmpChars es rs (i + 1) from by
          simp [cmpChars]]
        rw [ih rs (i + 1) h]
        constructor
        · intro hall j c c' hc hc'
          cases j with
          | zero =>
            simp only [List.getElem?_cons_zero, Option.some.injEq] at hc
            exact Or.inl hc.symm
          | succ j =>
            simp only [List.getElem?_cons_succ] at hc hc'
            exact hall j c c' hc hc'
        · intro hall j c c' hc hc'
          exact hall (j + 1) c c' (by simpa using hc) (by simpa using hc')
      · by_cases heq : e = r
        · subst heq
          rw [show cmpChars (e :: es) (e :: rs) i = cmpChars es rs (i + 1) from by
            simp [cmpChars, hstar]]
          rw [ih rs (i + 1) h]
          constructor
          · intro hall j c c' hc hc'
            cases j with
            | zero =>
              simp only [List.getElem?_cons_zero, Option.some.injEq] at hc hc'
              subst hc; subst hc'
              exact Or.inr rfl
            | succ j =>
              simp only [List.getElem?_cons_succ] at hc hc'
              exact hall j c c' hc hc'
          · intro hall j c c' hc hc'
            exact hall (j + 1) c c' (by simpa using hc) (by simpa using hc')
        · rw [show cmpChars (e :: es) (r :: rs) i = .mismatch i e r from by
            simp [cmpChars, hstar, heq]]
          constructor
          · intro h0
            exact absurd h0 (by simp)
          · intro hall
            exfalso
            rcases hall 0 e r (by simp) (by simp) with h0 | h0
            · exact hstar h0
            · exact heq h0

theorem cmpChars_mismatch (es : Str) : ∀ (rs : Str) (i k : Nat) (e r : Char),
    cmpChars es rs i = .mismatch k e r →
    ∃ j, k = i + j ∧ es[j]? = some e ∧ rs[j]? = some r ∧ e ≠ '*' ∧ e ≠ r ∧
      ∀ (j' : Nat) (c c' : Char), j' < j → es[j']? = some c →
        rs[j']? = some c' → c = '*' ∨ c = c' := by
  induction es with
  | nil =>
    intro rs i k e r h
    simp [cmpChars] at h
  | cons e0 es ih =>
    intro rs i k e r h
    cases rs with
    | nil => simp [cmpChars] at h
    | cons r0 rs =>
      by_cases hstar : e0 = '*'
      · subst hstar
        rw [show cmpChars ('*' :: es) (r0 :: rs) i = cmpChars es rs (i + 1) from by
          simp [cmpChars]] at h
        obtain ⟨j, hk, he, hr, hne1, hne2, hprev⟩ := ih rs (i + 1) k e r h
        refine ⟨j + 1, by omega, by simpa using he, by simpa using hr, hne1, hne2,
          ?_⟩
        intro j' c c' hj' hc hc'
        cases j' with
        | zero =>
          simp only [List.getElem?_cons_zero, Option.some.injEq] at hc
          exact Or.inl hc.symm
        | succ j' =>
          simp only [List.getElem?_cons_succ] at hc hc'
          exact hprev j' c c' (by omega) hc hc'
      · by_cases heq : e0 = r0
        · subst heq
          rw [show cmpChars (e0 :: es) (e0 :: rs) i = cmpChars es rs (i + 1) from by
            simp [cmpChars, hstar]] at h
          obtain ⟨j, hk, he, hr, hne1, hne2, hprev⟩ := ih rs (i + 1) k e r h
          refine ⟨j + 1, by omega, by simpa using he, by simpa using hr, hne1,
            hne2, ?_⟩
          intro j' c c' hj' hc hc'
          cases j' with
          | zero =>
            simp only [List.getElem?_cons_zero, Option.some.injEq] at hc hc'
            subst hc; subst hc'
            exact Or.inr rfl
          | succ j' =>
            simp only [List.getElem?_cons_succ] at hc hc'
            exact hprev j' c c' (by omega) hc hc'
        · rw [show cmpChars (e0 :: es) (r0 :: rs) i = .mismatch i e0 r0 from by
            simp [cmpChars, hstar, heq]] at h
          injection h with h1 h2 h3
          subst h1; subst h2; subst h3
          exact ⟨0, by omega, by simp, by simp, hstar, heq, by omega⟩

/-- C4: packet comparison succeeds exactly when the processed received hex
string is at least as long as the processed expected string and agrees with it
at every position where the expected character is not `*`; a shorter received
string always fails with both lengths reported; a mismatch failure reports the
first differing position together with both characters (positions before it
all match or are wildcards), so trailing extra received characters are never
compared. -/
theorem comparePacket_spec (expected : Str) (bytes : List Nat) :
    (comparePacket expected bytes = .success ↔
      ((expProc expected).length ≤ (recvProc bytes).length ∧
        ∀ (j : Nat) (c c' : Char), (expProc expected)[j]? = some c →
          (recvProc bytes)[j]? = some c' → c = '*' ∨ c = c')) ∧
    ((recvProc bytes).length < (expProc expected).length →
      comparePacket expected bytes =
        .tooShort (recvProc bytes).length (expProc expected).length) ∧
    (∀ (k : Nat) (e r : Char), comparePacket expected bytes = .mismatch k e r →
      (expProc expected)[k]? = some e ∧ (recvProc bytes)[k]? = some r ∧
      e ≠ '*' ∧ e ≠ r ∧
      ∀ (j : Nat) (c c' : Char), j < k → (expProc expected)[j]? = some c →
        (recvProc bytes)[j]? = some c' → c = '*' ∨ c = c') := by
  by_cases hlen : (recvProc bytes).length < (expProc expected).length
  · refine ⟨?_, fun _ => by simp [comparePacket, hlen], ?_⟩
    · rw [show comparePacket expected bytes =
          .tooShort (recvProc bytes).length (expProc expected).length from by
        simp [comparePacket, hlen]]
      constructor
      · intro h
        exact absurd h (by simp)
      · intro ⟨h1, _⟩
        omega
    · intro k e r h
      rw [show comparePacket expected bytes =
          .tooShort (recvProc bytes).length (expProc expected).length from by
        simp [comparePacket, hlen]] at h
      exact absurd h (by simp)
  · have hle : (expProc expected).length ≤ (recvProc bytes).length := by omega
    have hcp : comparePacket expected bytes =
        cmpChars (expProc expected) (recvProc bytes) 0 := by
      simp [comparePacket, hlen]
    refine ⟨?_, fun h => absurd h (by omega), ?_⟩
    · rw [hcp, cmpChars_success_iff _ _ 0 hle]
      constructor
      · intro h
        exact ⟨hle, h⟩
      · intro ⟨_, h⟩
        exact h
    · intro k e r h
      rw [hcp] at h
      obtain ⟨j, hk, he, hr, hne1, hne2, hprev⟩ :=
        cmpChars_mismatch _ _ 0 k e r h
      have hj : j = k := by omega
      subst hj
      exact ⟨he, hr, hne1, hne2, hprev⟩

/-- Witness for C4: `AB*D` against bytes `AB CF` reports the mismatch at
position 3 with characters `D`/`F`; expected `ABCD` against the single byte
`AB` is too short. -/
theorem comparePacket_spec_witness :
    comparePacket ("ABCD".toList) [171] = .tooShort 2 4 ∧
    (expProc ("AB*D".toList))[3]? = some 'D' ∧
    (recvProc [171, 207])[3]? = some 'F' ∧ ('D' ≠ '*') ∧ ('D' ≠ 'F') := by
  refine ⟨(comparePacket_spec ("ABCD".toList) [171]).2.1 (by decide), ?_⟩
  obtain ⟨h1, h2, h3, h4, _⟩ :=
    (comparePacket_spec ("AB*D".toList) [171, 207]).2.2 3 'D' 'F' (by decide)
  exact ⟨h1, h2, h3, h4⟩

theorem generateGo_all_occupied (occupied : Nat → Bool) (draws : Nat → Nat) :
    ∀ (r i : Nat), (∀ j, i ≤ j → j < i + r → occupied (draws j) = true) →
    generateGo occupied draws i r = (none, r) := by
  intro r
  induction r with
  | zero => intro i _; rfl
  | succ r ih =>
    intro i h
    have h0 : occupied (draws i) = true := h i (Nat.le_refl i) (by omega)
    simp only [generateGo, h0, if_true]
    rw [ih (i + 1) (fun j hj1 hj2 => h j (by omega) (by omega))]

theorem generateGo_success (occupied : Nat → Bool) (draws : Nat → Nat) :
    ∀ (r i k : Nat), k < r → occupied (draws (i + k)) = false →
    (∀ j, j < k → occupied (draws (i + j)) = true) →
    generateGo occupied draws i r = (some (draws (i + k)), k) := by
  intro r
  induction r with
  | zero => intro i k hk; omega
  | succ r ih =>
    intro i k hk hocc hprev
    cases k with
    | zero =>
      have h0 : occupied (draws i) = false := by simpa using hocc
      simp [generateGo, h0]
    | succ k =>
      have h0 : occupied (draws i) = true := by
        have := hprev 0 (by omega)
        simpa using this
      simp only [generateGo, h0, if_true]
      rw [ih (i + 1) k (by omega) (by rw [show i + 1 + k = i + (k + 1) from by omega]; exact hocc)
        (fun j hj => by rw [show i + 1 + j = i + (j + 1) from by omega]; exact hprev (j + 1) (by omega))]
      rw [show i + 1 + k = i + (k + 1) from by omega]

theorem generateGo_some_range (occupied : Nat → Bool) (draws : Nat → Nat) :
    ∀ (r i : Nat) (v s : Nat), generateGo occupied draws i r = (some v, s) →
    ∃ j, i ≤ j ∧ j < i + r ∧ v = draws j := by
  intro r
  induction r with
  | zero =>
    intro i v s h
    simp [generateGo] at h
  | succ r ih =>
    intro i v s h
    rcases hp : generateGo occupied draws (i + 1) r with ⟨v', s'⟩
    cases hcc : occupied (draws i)
    · simp only [generateGo, hcc, Bool.false_eq_true, if_false,
        Prod.mk.injEq, Option.some.injEq] at h
      exact ⟨i, Nat.le_refl i, by omega, h.1.symm⟩
    · simp only [generateGo, hcc, if_true, hp, Prod.mk.injEq] at h
      obtain ⟨j, hj1, hj2, hj3⟩ := ih (i + 1) v s' (by rw [hp, h.1])
      exact ⟨j, by omega, by omega, hj3⟩

theorem generateGo_oracle_congr (occupied : Nat → Bool) :
    ∀ (r i : Nat) (draws draws' : Nat → Nat),
    (∀ j, i ≤ j → j < i + r → draws j = draws' j) →
    generateGo occupied draws i r = generateGo occupied draws' i r := by
  intro r
  induction r with
  | zero => intro i _ _ _; rfl
  | succ r ih =>
    intro i draws draws' h
    have h0 : draws i = draws' i := h i (Nat.le_refl i) (by omega)
    simp only [generateGo, h0]
    rw [ih (i + 1) draws draws' (fun j hj1 hj2 => h j (by omega) (by omega))]

/-- C7: the port allocator's retry loop makes at most 10 attempts (the result
only depends on the first 10 oracle draws), claims the first drawn integer
whose marker does not already exist, stays within `[0, max]` whenever the
random oracle does (`random.randint(0, max)` is inclusive on both ends),
sleeps one second per collision, and returns `None` with 10 seconds slept
when all 10 attempts collide. -/
theorem generate_spec (occupied : Nat → Bool) (draws : Nat → Nat) :
    ((∀ j, j < 10 → occupied (draws j) = true) →
      ConcurrentInteger.generate occupied draws = (none, 10)) ∧
    (∀ k, k < 10 → occupied (draws k) = false →
      (∀ j, j < k → occupied (draws j) = true) →
      ConcurrentInteger.generate occupied draws = (some (draws k), k)) ∧
    (∀ maxV : Nat, (∀ j, j < 10 → draws j ≤ maxV) →
      ∀ v s, ConcurrentInteger.generate occupied draws = (some v, s) →
        v ≤ maxV) ∧
    (∀ draws' : Nat → Nat, (∀ j, j < 10 → draws j = draws' j) →
      ConcurrentInteger.generate occupied draws =
        ConcurrentInteger.generate occupied draws') := by
  refine ⟨?_, ?_, ?_, ?_⟩
  · intro h
    exact generateGo_all_occupied occupied draws 10 0
      (fun j hj1 hj2 => h j (by omega))
  · intro k hk hocc hprev
    have := generateGo_success occupied draws 10 0 k hk
      (by simpa using hocc) (fun j hj => by simpa using hprev j hj)
    simpa using this
  · intro maxV hmax v s h
    obtain ⟨j, hj1, hj2, hj3⟩ :=
      generateGo_some_range occupied draws 10 0 v s h
    rw [hj3]
    exact hmax j (by omega)
  · intro draws' h
    exact generateGo_oracle_congr occupied 10 0 draws draws'
      (fun j hj1 hj2 => h j (by omega))

/-- Witness for C7: with markers 0, 1, 2 taken and the oracle drawing
0, 1, 2, 3, ..., the allocator claims 3 after three 1-second backoffs; with
every marker taken it returns `None` after 10 collisions. -/
theorem generate_spec_witness :
    ConcurrentInteger.generate (fun n => decide (n < 3)) (fun i => i) =
      (some 3, 3) ∧
    ConcurrentInteger.generate (fun _ => true) (fun i => i) = (none, 10) := by
  constructor
  · exact (generate_spec (fun n => decide (n < 3)) (fun i => i)).2.1 3
      (by omega) (by decide) (fun j hj => decide_eq_true hj)
  · exact (generate_spec (fun _ => true) (fun i => i)).1 (fun j _ => rfl)

theorem do_command_delay_step (tables : List BMV2Table)
    (actions : List BMV2Action) (st : St) (l : Str) (st₁ : St) (evs : List Ev)
    (h : do_command tables actions st (nextWordSep '#' l).1 = .ok (st₁, evs)) :
    match lineKind l with
    | .ctrl => st₁.packetDelay = 100 ∧ packetDelays evs = []
    | .pkt => st₁.packetDelay = 0 ∧ packetDelays evs = [st.packetDelay]
    | .other => st₁.packetDelay = st.packetDelay ∧ packetDelays evs = [] := by
  simp only [do_command] at h
  by_cases h1 : (nextWordWS (nextWordSep '#' l).1).1 = []
  · rw [if_pos h1] at h
    rw [show lineKind l = .other from by simp only [lineKind, h1]; decide]
    simp only [Except.ok.injEq, Prod.mk.injEq] at h
    obtain ⟨ha, hb⟩ := h
    subst ha; subst hb
    simp [packetDelays]
  · rw [if_neg h1] at h
    by_cases h2 : (nextWordWS (nextWordSep '#' l).1).1 = "add".toList
    · rw [if_pos h2] at h
      rw [show lineKind l = .ctrl from by simp only [lineKind, h2]; decide]
      split at h
      · exact absurd h (by simp)
      · simp only [Except.ok.injEq, Prod.mk.injEq] at h
        obtain ⟨ha, hb⟩ := h
        subst ha; subst hb
        simp [packetDelays]
    · rw [if_neg h2] at h
      by_cases h3 : (nextWordWS (nextWordSep '#' l).1).1 = "setdefault".toList
      · rw [if_pos h3] at h
        rw [show lineKind l = .ctrl from by simp only [lineKind, h3]; decide]
        split at h
        · exact absurd h (by simp)
        · simp only [Except.ok.injEq, Prod.mk.injEq] at h
          obtain ⟨ha, hb⟩ := h
          subst ha; subst hb
          simp [packetDelays]
      · rw [if_neg h3] at h
        by_cases h4 : (nextWordWS (nextWordSep '#' l).1).1 = "packet".toList
        · rw [if_pos h4] at h
          rw [show lineKind l = .pkt from by simp only [lineKind, h4]; decide]
          by_cases h5 : (nextWordWS (nextWordWS (nextWordSep '#' l).1).2).1 ∈
              st.interfaces
          · rw [if_pos h5] at h
            split at h
            · exact absurd h (by simp)
            · simp only [Except.ok.injEq, Prod.mk.injEq] at h
              obtain ⟨ha, hb⟩ := h
              subst ha; subst hb
              simp [packetDelays]
          · rw [if_neg h5] at h
            exact absurd h (by simp)
        · rw [if_neg h4] at h
          have hother : lineKind l = .other := by
            simp only [lineKind]
            rw [if_neg (not_or.mpr ⟨h2, h3⟩), if_neg h4]
          rw [hother]
          by_cases h6 : (nextWordWS (nextWordSep '#' l).1).1 = "expect".toList
          · rw [if_pos h6] at h
            simp only [Except.ok.injEq, Prod.mk.injEq] at h
            obtain ⟨ha, hb⟩ := h
            subst ha; subst hb
            simp [packetDelays]
          · rw [if_neg h6] at h
            simp only [Except.ok.injEq, Prod.mk.injEq] at h
            obtain ⟨ha, hb⟩ := h
            subst ha; subst hb
            simp [packetDelays]

theorem packetDelays_append (a b : List Ev) :
    packetDelays (a ++ b) = packetDelays a ++ packetDelays b :=
  List.filterMap_append ..

theorem runLines_delays (tables : List BMV2Table) (actions : List BMV2Action) :
    ∀ (lines : List Str) (st st' : St) (evs : List Ev),
    runLines tables actions st lines = .ok (st', evs) →
    packetDelays evs = delaysSpec st.packetDelay lines ∧
    st'.packetDelay = pendingAfter st.packetDelay lines := by
  intro lines
  induction lines with
  | nil =>
    intro st st' evs h
    simp only [runLines, Except.ok.injEq, Prod.mk.injEq] at h
    obtain ⟨ha, hb⟩ := h
    subst ha; subst hb
    simp [packetDelays, delaysSpec, pendingAfter]
  | cons l ls ih =>
    intro st st' evs h
    simp only [runLines] at h
    rcases hd : do_command tables actions st (nextWordSep '#' l).1 with e | p
    · rw [hd] at h
      exact absurd h (by simp)
    · rw [hd] at h
      replace h : (match runLines tables actions p.1 ls with
          | .error e => (.error e : Except PyErr (St × List Ev))
          | .ok q => .ok (q.1, p.2 ++ q.2)) = .ok (st', evs) := h
      rcases hr : runLines tables actions p.1 ls with e | q
      · rw [hr] at h
        exact absurd h (by simp)
      · rw [hr] at h
        simp only [Except.ok.injEq, Prod.mk.injEq] at h
        obtain ⟨ha, hb⟩ := h
        subst ha; subst hb
        have hstep := do_command_delay_step tables actions st l p.1 p.2
          (by rw [hd])
        have hih := ih p.1 q.1 q.2 (by rw [hr])
        cases hk : lineKind l with
        | ctrl =>
          rw [hk] at hstep
          replace hstep : p.1.packetDelay = 100 ∧ packetDelays p.2 = [] := hstep
          constructor
          · rw [show delaysSpec st.packetDelay (l :: ls) = delaysSpec 100 ls
              from by simp only [delaysSpec, hk]]
            rw [packetDelays_append, hstep.2, hih.1, hstep.1]
            simp
          · rw [show pendingAfter st.packetDelay (l :: ls) = pendingAfter 100 ls
              from by simp only [pendingAfter, hk]]
            rw [hih.2, hstep.1]
        | pkt =>
          rw [hk] at hstep
          replace hstep : p.1.packetDelay = 0 ∧
            packetDelays p.2 = [st.packetDelay] := hstep
          constructor
          · rw [show delaysSpec st.packetDelay (l :: ls) =
                st.packetDelay :: delaysSpec 0 ls
              from by simp only [delaysSpec, hk]]
            rw [packetDelays_append, hstep.2, hih.1, hstep.1]
            simp
          · rw [show pendingAfter st.packetDelay (l :: ls) = pendingAfter 0 ls
              from by simp only [pendingAfter, hk]]
            rw [hih.2, hstep.1]
        | other =>
          rw [hk] at hstep
          replace hstep : p.1.packetDelay = st.packetDelay ∧
            packetDelays p.2 = [] := hstep
          constructor
          · rw [show delaysSpec st.packetDelay (l :: ls) =
                delaysSpec st.packetDelay ls
              from by simp only [delaysSpec, hk]]
            rw [packetDelays_append, hstep.2, hih.1, hstep.1]
            simp
          · rw [show pendingAfter st.packetDelay (l :: ls) =
                pendingAfter st.packetDelay ls
              from by simp only [pendingAfter, hk]]
            rw [hih.2, hstep.1]

/-- C8: over any successfully processed STF line list, the delay slept before
each packet write equals the claim's settling-delay discipline starting from
the constructor's zero pending delay: 100 ms when an `add`/`setdefault` was
processed since the previous packet injection (or start), 0 ms otherwise, the
pending delay resetting to zero after every injection. -/
theorem packet_delay_spec (tables : List BMV2Table) (actions : List BMV2Action)
    (interfaces : List Str) (lines : List Str) (st' : St) (evs : List Ev)
    (h : runLines tables actions (RunBMV2.initSt interfaces) lines =
      .ok (st', evs)) :
    packetDelays evs = delaysSpec 0 lines ∧
    st'.packetDelay = pendingAfter 0 lines :=
  runLines_delays tables actions lines (RunBMV2.initSt interfaces) st' evs h

/-- Witness for C8: `setdefault` then two packets sleeps 100 ms before the
first injection and 0 ms before the second. -/
theorem packet_delay_spec_witness :
    packetDelays [Ev.cli ("table_set_default T a".toList),
      Ev.packet ['p'] [0] 100, Ev.packet ['p'] [0] 0] =
      delaysSpec 0 ["setdefault T a() # c".toList, "packet p 00".toList,
        "packet p 00".toList] ∧
    (⟨0, [['p']], []⟩ : St).packetDelay =
      pendingAfter 0 ["setdefault T a() # c".toList, "packet p 00".toList,
        "packet p 00".toList] :=
  packet_delay_spec [⟨['T'], ⟨[], false⟩, [(['a'], 0)]⟩] [⟨['a'], []⟩] [['p']]
    ["setdefault T a() # c".toList, "packet p 00".toList,
      "packet p 00".toList]
    ⟨0, [['p']], []⟩
    [Ev.cli ("table_set_default T a".toList), Ev.packet ['p'] [0] 100,
      Ev.packet ['p'] [0] 0]
    (by decide)

theorem strLe_total_aux : ∀ (a b : Str), strLe a b = true ∨ strLe b a = true := by
  intro a
  induction a with
  | nil => intro b; left; rfl
  | cons x xs ih =>
    intro b
    cases b with
    | nil => right; rfl
    | cons y ys =>
      by_cases h1 : x.toNat < y.toNat
      · left; simp [strLe, h1]
      · by_cases h2 : y.toNat < x.toNat
        · right; simp [strLe, h2]
        · rcases ih ys with h | h
          · left; simp [strLe, h1, h2, h]
          · right; simp [strLe, h1, h2, h]

theorem strLe_trans_aux : ∀ (a b c : Str), strLe a b = true → strLe b c = true →
    strLe a c = true := by
  intro a
  induction a with
  | nil => intro b c _ _; rfl
  | cons x xs ih =>
    intro b c h1 h2
    cases b with
    | nil => simp [strLe] at h1
    | cons y ys =>
      cases c with
      | nil => simp [strLe] at h2
      | cons z zs =>
        have hxy : x.toNat < y.toNat ∨
            (x.toNat = y.toNat ∧ strLe xs ys = true) := by
          by_cases ha : x.toNat < y.toNat
          · exact Or.inl ha
          · by_cases hb : y.toNat < x.toNat
            · simp [strLe, ha, hb] at h1
            · exact Or.inr ⟨by omega, by simpa [strLe, ha, hb] using h1⟩
        have hyz : y.toNat < z.toNat ∨
            (y.toNat = z.toNat ∧ strLe ys zs = true) := by
          by_cases ha : y.toNat < z.toNat
          · exact Or.inl ha
          · by_cases hb : z.toNat < y.toNat
            · simp [strLe, ha, hb] at h2
            · exact Or.inr ⟨by omega, by simpa [strLe, ha, hb] using h2⟩
        rcases hxy with ha | ⟨ha, ha'⟩ <;> rcases hyz with hb | ⟨hb, hb'⟩
        · simp [strLe, show x.toNat < z.toNat from by omega]
        · simp [strLe, show x.toNat < z.toNat from by omega]
        · simp [strLe, show x.toNat < z.toNat from by omega]
        · simp [strLe, show ¬x.toNat < z.toNat from by omega,
            show ¬z.toNat < x.toNat from by omega, ih ys zs ha' hb']

theorem strLe_isTotal : IsTotal Str (fun a b => strLe a b = true) :=
  ⟨strLe_total_aux⟩

theorem strLe_isTrans : IsTrans Str (fun a b => strLe a b = true) :=
  ⟨strLe_trans_aux⟩

theorem gmi_aux : ∀ (lines : List Str) (acc : List Str),
    lines.foldl (fun acc line =>
      match stfRef line with
      | none => acc
      | some interface =>
        if interface ∈ acc then acc else acc ++ [interface]) acc =
    acc ++ dedupKeepFirst ((interfaceRefs lines).filter (fun r => r ∉ acc)) := by
  intro lines
  induction lines with
  | nil =>
    intro acc
    simp [interfaceRefs, dedupKeepFirst]
  | cons l ls ih =>
    intro acc
    simp only [List.foldl_cons, interfaceRefs, List.filterMap_cons]
    cases hs : stfRef l with
    | none =>
      simp only [hs]
      simpa [interfaceRefs] using ih acc
    | some r =>
      simp only [hs]
      by_cases hmem : r ∈ acc
      · rw [if_pos hmem]
        have := ih acc
        simp only [interfaceRefs] at this
        rw [this]
        simp [hmem]
      · rw [if_neg hmem]
        have := ih (acc ++ [r])
        simp only [interfaceRefs] at this
        rw [this]
        have hfilter : (ls.filterMap stfRef).filter
              (fun y => y ∉ acc ++ [r]) =
            ((ls.filterMap stfRef).filter (fun y => y ∉ acc)).filter
              (fun y => y ≠ r) := by
          rw [List.filter_filter]
          apply List.filter_congr
          intro y _
          by_cases hy1 : y = r
          · simp [hy1, hmem]
          · by_cases hy2 : y ∈ acc <;> simp [hy1, hy2, List.mem_append]
        rw [hfilter]
        simp [dedupKeepFirst, hmem, List.append_assoc]

/-- C3 counterexample: for an STF source referencing interfaces in order
`b, a`, the input fifos are created in first-appearance order `[b, a]`, but
`RunBMV2.run` opens them in `sorted(...)` order `[a, b]`, not in the
first-appearance order the claim states. -/
theorem open_order_counterexample :
    generate_model_inputs ["packet b 00".toList, "packet a 00".toList] =
      [['b'], ['a']] ∧
    openOrder (generate_model_inputs
      ["packet b 00".toList, "packet a 00".toList]) = [['a'], ['b']] ∧
    openOrder (generate_model_inputs
        ["packet b 00".toList, "packet a 00".toList]) ≠
      generate_model_inputs ["packet b 00".toList, "packet a 00".toList] := by
  refine ⟨by decide, by decide, by decide⟩

/-- C3 (amended): the input fifos are created in the order of each referenced
interface name's first appearance in the STF source (`generate_model_inputs`
equals first-occurrence deduplication of the reference sequence), and the
endpoints are later opened in ascending lexicographic name order — a sorted
permutation of the creation list — not in first-appearance order. -/
theorem interfaces_creation_and_open_order (lines : List Str) :
    generate_model_inputs lines = dedupKeepFirst (interfaceRefs lines) ∧
    (openOrder (generate_model_inputs lines)).Perm
      (generate_model_inputs lines) ∧
    List.Sorted (fun a b => strLe a b = true)
      (openOrder (generate_model_inputs lines)) := by
  refine ⟨?_, ?_, ?_⟩
  · have h := gmi_aux lines []
    rw [generate_model_inputs, h]
    simp
  · exact List.perm_insertionSort _ _
  · exact @List.sorted_insertionSort Str _ _ strLe_isTotal strLe_isTrans _

theorem exceptBind_ok {ε α β : Type} (a : α) (f : α → Except ε β) :
    (Except.ok a : Except ε α) >>= f = f a := rfl

theorem exceptBind_error {ε α β : Type} (e : ε) (f : α → Except ε β) :
    (Except.error e : Except ε α) >>= f = .error e := rfl

theorem applyKeys_ok_iff : ∀ (assigns : List (Str × Str))
    (ki : TableKeyInstance) (ternary : Bool) (ki' : TableKeyInstance),
    applyKeys ki ternary assigns = .ok ki' ↔
    ((∀ p ∈ assigns, rewriteKey p.1 ∈ ki.key.fields ∧
        ∃ m, makeMask p.2 ternary = .ok m) ∧
      ki' = ⟨ki.key, assigns.foldl (keyUpd ternary) ki.values⟩) := by
  intro assigns
  induction assigns with
  | nil =>
    intro ki t ki'
    simp only [applyKeys, List.foldlM_nil, List.foldl_nil]
    constructor
    · intro h
      refine ⟨by simp, ?_⟩
      replace h : (Except.ok ki : Except PyErr TableKeyInstance) = .ok ki' := h
      injection h with h'
      exact h'.symm
    · rintro ⟨-, h⟩
      rw [h]
      rfl
  | cons p ps ih =>
    intro ki t ki'
    simp only [applyKeys, List.foldlM_cons] at *
    by_cases hmem : rewriteKey p.1 ∈ ki.key.fields
    · rcases hmk : makeMask p.2 t with e | m
      · have hset : ki.set p.1 p.2 t = .error e := by
          simp [TableKeyInstance.set, hmem, hmk, exceptMap_error]
        rw [hset, exceptBind_error]
        constructor
        · intro h
          exact absurd h (by simp)
        · rintro ⟨hall, -⟩
          obtain ⟨-, m, hm⟩ := hall p (List.mem_cons_self p ps)
          rw [hmk] at hm
          exact absurd hm (by simp)
      · have hset : ki.set p.1 p.2 t =
            .ok ⟨ki.key, Function.update ki.values (rewriteKey p.1) (some m)⟩ := by
          simp [TableKeyInstance.set, hmem, hmk, exceptMap_ok]
        rw [hset, exceptBind_ok]
        have hupd : Function.update ki.values (rewriteKey p.1) (some m) =
            keyUpd t ki.values p := by
          simp [keyUpd, maskD, hmk]
        rw [ih]
        constructor
        · rintro ⟨hall, hki⟩
          refine ⟨?_, ?_⟩
          · intro q hq
            rcases List.mem_cons.mp hq with hq | hq
            · subst hq
              exact ⟨hmem, m, hmk⟩
            · exact hall q hq
          · rw [hki, List.foldl_cons, ← hupd]
        · rintro ⟨hall, hki⟩
          refine ⟨?_, ?_⟩
          · intro q hq
            exact hall q (List.mem_cons_of_mem p hq)
          · rw [hki, List.foldl_cons, ← hupd]
    · have hset : ki.set p.1 p.2 t = .error (.unknownField (rewriteKey p.1)) := by
        simp [TableKeyInstance.set, hmem]
      rw [hset, exceptBind_error]
      constructor
      · intro h
        exact absurd h (by simp)
      · rintro ⟨hall, -⟩
        exact absurd (hall p (List.mem_cons_self p ps)).1 hmem

theorem applyArgs_ok_iff : ∀ (assigns : List (Str × Str))
    (aa : BMV2ActionArguments) (aa' : BMV2ActionArguments),
    applyArgs aa assigns = .ok aa' ↔
    ((∀ p ∈ assigns, ∃ a ∈ aa.action.args, a.name = p.1) ∧
      aa' = ⟨aa.action, assigns.foldl argUpd aa.values⟩) := by
  intro assigns
  induction assigns with
  | nil =>
    intro aa aa'
    simp only [applyArgs, List.foldlM_nil, List.foldl_nil]
    constructor
    · intro h
      refine ⟨by simp, ?_⟩
      replace h : (Except.ok aa : Except PyErr BMV2ActionArguments) = .ok aa' := h
      injection h with h'
      exact h'.symm
    · rintro ⟨-, h⟩
      rw [h]
      rfl
  | cons p ps ih =>
    intro aa aa'
    simp only [applyArgs, List.foldlM_cons] at *
    by_cases hmem : aa.action.args.any (fun i => i.name == p.1) = true
    · have hset : aa.set p.1 p.2 =
          .ok ⟨aa.action, Function.update aa.values p.1 (some p.2)⟩ := by
        simp only [BMV2ActionArguments.set, hmem, if_true]
      rw [hset, exceptBind_ok, ih]
      constructor
      · rintro ⟨hall, haa⟩
        refine ⟨?_, ?_⟩
        · intro q hq
          rcases List.mem_cons.mp hq with hq | hq
          · subst hq
            simpa [List.any_eq_true] using hmem
          · exact hall q hq
        · rw [haa, List.foldl_cons]
          rfl
      · rintro ⟨hall, haa⟩
        refine ⟨?_, ?_⟩
        · intro q hq
          exact hall q (List.mem_cons_of_mem p hq)
        · rw [haa, List.foldl_cons]
          rfl
    · have hset : aa.set p.1 p.2 = .error (.unknownArg p.1) := by
        simp [BMV2ActionArguments.set, hmem]
      rw [hset, exceptBind_error]
      constructor
      · intro h
        exact absurd h (by simp)
      · rintro ⟨hall, -⟩
        refine absurd ?_ hmem
        simp only [List.any_eq_true, beq_iff_eq]
        exact hall p (List.mem_cons_self p ps)

/-- C9: for a valid add statement — one whose assignments all succeed and,
within each list, address pairwise distinct names — permuting the `field:value`
key assignments among themselves, or the `argname:value` action-argument
assignments among themselves, leaves the resulting key instance and argument
instance (and hence the rendered command string, which reads them back in
declared field/argument order) unchanged. -/
theorem assignment_order_irrelevant :
    (∀ (ki : TableKeyInstance) (ternary : Bool) (a a' : List (Str × Str))
      (ki₁ : TableKeyInstance), a.Perm a' →
      (a.map (fun p => rewriteKey p.1)).Nodup →
      applyKeys ki ternary a = .ok ki₁ →
      applyKeys ki ternary a' = applyKeys ki ternary a) ∧
    (∀ (aa : BMV2ActionArguments) (a a' : List (Str × Str))
      (aa₁ : BMV2ActionArguments), a.Perm a' →
      (a.map (fun p => p.1)).Nodup →
      applyArgs aa a = .ok aa₁ →
      applyArgs aa a' = applyArgs aa a) := by
  constructor
  · intro ki t a a' ki₁ hperm hnodup hok
    rw [hok]
    rw [applyKeys_ok_iff] at hok
    obtain ⟨hall, hki⟩ := hok
    apply (applyKeys_ok_iff a' ki t ki₁).mpr
    refine ⟨?_, ?_⟩
    · intro p hp
      exact hall p (hperm.mem_iff.mpr hp)
    · rw [hki]
      have hfold : a'.foldl (keyUpd t) ki.values = a.foldl (keyUpd t) ki.values := by
        refine (hperm.foldl_eq' ?_ ki.values).symm
        intro x hx y hy z
        by_cases hxy : rewriteKey x.1 = rewriteKey y.1
        · have hxyeq : x = y := List.inj_on_of_nodup_map hnodup hx hy hxy
          rw [hxyeq]
        · simp only [keyUpd]
          rw [Function.update_comm hxy]
      rw [hfold]
  · intro aa a a' aa₁ hperm hnodup hok
    rw [hok]
    rw [applyArgs_ok_iff] at hok
    obtain ⟨hall, haa⟩ := hok
    apply (applyArgs_ok_iff a' aa aa₁).mpr
    refine ⟨?_, ?_⟩
    · intro p hp
      exact hall p (hperm.mem_iff.mpr hp)
    · rw [haa]
      have hfold : a'.foldl argUpd aa.values = a.foldl argUpd aa.values := by
        refine (hperm.foldl_eq' ?_ aa.values).symm
        intro x hx y hy z
        by_cases hxy : x.1 = y.1
        · have hxyeq : x = y := List.inj_on_of_nodup_map hnodup hx hy hxy
          rw [hxyeq]
        · simp only [argUpd]
          rw [Function.update_comm hxy]
      rw [hfold]

/-- Witness for C9: swapping two key assignments (and two argument
assignments) leaves the resulting instances unchanged. -/
theorem assignment_order_irrelevant_witness :
    applyKeys ⟨⟨[['f'], ['g']], false⟩, fun _ => none⟩ false
      [(['g'], ['2']), (['f'], ['1'])] =
    applyKeys ⟨⟨[['f'], ['g']], false⟩, fun _ => none⟩ false
      [(['f'], ['1']), (['g'], ['2'])] ∧
    applyArgs ⟨⟨['a'], [⟨['x'], 8⟩, ⟨['y'], 8⟩]⟩, fun _ => none⟩
      [(['y'], ['2']), (['x'], ['1'])] =
    applyArgs ⟨⟨['a'], [⟨['x'], 8⟩, ⟨['y'], 8⟩]⟩, fun _ => none⟩
      [(['x'], ['1']), (['y'], ['2'])] :=
  ⟨assignment_order_irrelevant.1 ⟨⟨[['f'], ['g']], false⟩, fun _ => none⟩ false
      [(['f'], ['1']), (['g'], ['2'])] [(['g'], ['2']), (['f'], ['1'])] _
      (by decide) (by decide) rfl,
   assignment_order_irrelevant.2 ⟨⟨['a'], [⟨['x'], 8⟩, ⟨['y'], 8⟩]⟩, fun _ => none⟩
      [(['x'], ['1']), (['y'], ['2'])] [(['y'], ['2']), (['x'], ['1'])] _
      (by decide) (by decide) rfl⟩
